import Mathlib

/-!
Verification of the ctags language server core against its specification.

The definitions below are a shallow embedding of the Go sources:
the LSP data model, the document cache, the symbol index and its
per-file rescan, the completion / definition / workspace-symbol query
logic, the word-at-cursor scanner, the symbol-range heuristic, and the
legacy tagfile parser.  Machine integers are modelled as Int (Go int;
the values involved never approach overflow), Go byte strings as Lean
String with explicit rune (Char) lists where the Go code converts with
[]rune, Go maps as association lists observed through lookup, and
fallible operations as Option.  All definitions are executable so that
theorems with hypotheses can be instantiated on concrete inputs.
-/

namespace CtagsLsp

/-- Position in a text document as sent by the client.  The protocol
declares both fields as non-negative integers, so they are modelled as
Nat. -/
structure Position where
  line : Nat
  character : Nat
deriving DecidableEq, Repr

/-- Position inside a Range produced by the server.  The Go code stores
these in int fields and findSymbolRangeInFile can produce the value -1
(for a tag entry whose line number is 0), so they are modelled as Int. -/
structure RangePosition where
  line : Int
  character : Int
deriving DecidableEq, Repr

/-- Range in a text document, mirroring the Go Range struct. -/
structure Range where
  start : RangePosition
  «end» : RangePosition
deriving DecidableEq, Repr

/-- TagEntry mirrors the Go struct of the same name: one canonical
symbol record.  The numeric Line field is Go int, hence Int here; a
ctags record with no line field leaves it at the zero value 0. -/
structure TagEntry where
  type : String
  name : String
  path : String
  pattern : String
  kind : String
  line : Int
  scope : String
  scopeKind : String
  typeref : String
  language : String
deriving DecidableEq, Repr

/-- MarkupContent mirrors the Go struct used for completion documentation. -/
structure MarkupContent where
  kind : String
  value : String
deriving DecidableEq, Repr

/-- CompletionItem mirrors the Go struct: label, numeric LSP kind,
detail text and documentation. -/
structure CompletionItem where
  label : String
  kind : Int
  detail : String
  documentation : MarkupContent
deriving DecidableEq, Repr

/-- SymbolInformation mirrors the Go struct emitted by the
workspace-symbol and document-symbol handlers.  The Location is
flattened into the uri and range fields. -/
structure SymbolInformation where
  name : String
  kind : Int
  uri : String
  range : Range
  containerName : String
deriving DecidableEq, Repr

/-! ## String utilities

The Go code uses the strings and strconv packages.  Their relevant
functions are re-implemented here over rune lists (List Char), which
makes every definition reduce by structural recursion so that concrete
instances can be settled by decide or rfl. -/

/-- Rune run of a decimal digit list, as strconv.Atoi consumes it:
at least one digit, all digits, base 10. -/
def decDigitsVal (ds : List Char) : Option Nat :=
  if ds = [] then none
  else if ds.all (fun c => c.isDigit) then
    some (ds.foldl (fun acc c => 10 * acc + (c.toNat - 48)) 0)
  else none

/-- Go strconv.Atoi: optional sign followed by one or more digits,
consuming the whole string.  Overflow of the 64-bit Go int is not
modelled; the line numbers involved are small. -/
def goAtoi (s : String) : Option Int :=
  match s.toList with
  | '+' :: ds => (decDigitsVal ds).map (fun n => (n : Int))
  | '-' :: ds => (decDigitsVal ds).map (fun n => -(n : Int))
  | ds => (decDigitsVal ds).map (fun n => (n : Int))

/-- Split a rune list on a separator rune; Go strings.Split semantics
for a one-rune separator (an empty input yields one empty field). -/
def splitOnChar (sep : Char) : List Char → List (List Char)
  | [] => [[]]
  | c :: rest =>
    if c = sep then [] :: splitOnChar sep rest
    else
      match splitOnChar sep rest with
      | [] => [[c]]
      | g :: gs => (c :: g) :: gs

/-- Go strings.Split with a single-character separator. -/
def goSplit (s : String) (sep : Char) : List String :=
  (splitOnChar sep s.toList).map (fun g => String.mk g)

/-- Lowercase a string character-wise, as strings.ToLower does on the
ASCII identifiers this server compares (the Unicode special cases of
the Go function do not arise for tag names). -/
def goToLower (s : String) : String :=
  String.mk (s.toList.map Char.toLower)

/-- Go strings.HasPrefix. -/
def goHasPrefixStr (s pre : String) : Bool :=
  pre.toList.isPrefixOf s.toList

/-- Number of bytes of the UTF-8 encoding of one rune, as Go counts
them. -/
def charUtf8Size (c : Char) : Nat :=
  if c.val < 0x80 then 1
  else if c.val < 0x800 then 2
  else if c.val < 0x10000 then 3
  else 4

/-- Byte length of the UTF-8 encoding of a rune list (Go len on the
corresponding string). -/
def utf8Len (cs : List Char) : Nat :=
  (cs.map charUtf8Size).sum

/-- Decimal digits of a Nat, fuel-driven so that it reduces
structurally; fuel n+1 always suffices for n. -/
def natDigitsAux : Nat → Nat → List Char
  | 0, _ => []
  | fuel + 1, n =>
    if n = 0 then []
    else natDigitsAux fuel (n / 10) ++ [Char.ofNat (48 + n % 10)]

/-- Decimal rendering of a Nat. -/
def natToStr (n : Nat) : String :=
  if n = 0 then "0" else String.mk (natDigitsAux (n + 1) n)

/-- Decimal rendering of an Int, as the %d verb of fmt.Sprintf prints
a Go int. -/
def intToStr : Int → String
  | Int.ofNat n => natToStr n
  | Int.negSucc n => "-" ++ natToStr (n + 1)

/-- Go strings.TrimSuffix with the two-rune suffix used by the tagfile
parser. -/
def goTrimPatternSuffix (s : String) : String :=
  let cs := s.toList
  if [';', '\"'].isSuffixOf cs then String.mk (cs.take (cs.length - 2))
  else s

/-- Go strings.Cut at the first colon: the key before it, the value
after it; none when the field has no colon. -/
def cutColon (s : String) : Option (String × String) :=
  match cutColonAux s.toList with
  | none => none
  | some (k, v) => some (String.mk k, String.mk v)
where cutColonAux : List Char → Option (List Char × List Char)
  | [] => none
  | c :: rest =>
    if c = ':' then some ([], rest)
    else
      match cutColonAux rest with
      | none => none
      | some (k, v) => some (c :: k, v)

/-- uriToPath from the Go source: strip a file:// scheme; the
filepath.FromSlash conversion is the identity on the slash-separated
paths of the target platform. -/
def uriToPath (uri : String) : String :=
  if "file://".toList.isPrefixOf uri.toList then String.mk (uri.toList.drop 7)
  else uri

/-- filepathToURI from the Go source.  filepath.Abs is the identity on
the already-absolute cleaned paths that reach this function (the
workspace root comes from the client as an absolute URI). -/
def filepathToURI (path : String) : String :=
  "file://" ++ path

/-- Go filepath.Ext: the suffix of the last slash-separated element
starting at its final dot, or empty. -/
def filepathExt (path : String) : String :=
  filepathExtAux path.toList.reverse []
where filepathExtAux : List Char → List Char → String
  | [], _ => ""
  | c :: rest, acc =>
    if c = '.' then String.mk ('.' :: acc)
    else if c = '/' then ""
    else filepathExtAux rest (c :: acc)

/-- Go filepath.Join of the workspace root and a relative record path.
The Clean normalization Join performs is omitted: it does not change
the final path element (hence the extension) for the record paths at
issue here. -/
def goJoin (root p : String) : String :=
  root ++ "/" ++ p

/-! ## LSP kind constants and kind mapping tables

These mirror the constant blocks and the two large map literals of the
Go sources (the fixed total lookup from a ctags kind string to a
presentation category). -/

def CompletionItemKindText : Int := 1
def CompletionItemKindMethod : Int := 2
def CompletionItemKindFunction : Int := 3
def CompletionItemKindConstructor : Int := 4
def CompletionItemKindField : Int := 5
def CompletionItemKindVariable : Int := 6
def CompletionItemKindClass : Int := 7
def CompletionItemKindInterface : Int := 8
def CompletionItemKindModule : Int := 9
def CompletionItemKindProperty : Int := 10
def CompletionItemKindUnit : Int := 11
def CompletionItemKindValue : Int := 12
def CompletionItemKindEnum : Int := 13
def CompletionItemKindKeyword : Int := 14
def CompletionItemKindSnippet : Int := 15
def CompletionItemKindColor : Int := 16
def CompletionItemKindFile : Int := 17
def CompletionItemKindReference : Int := 18
def CompletionItemKindFolder : Int := 19
def CompletionItemKindEnumMember : Int := 20
def CompletionItemKindConstant : Int := 21
def CompletionItemKindStruct : Int := 22
def CompletionItemKindEvent : Int := 23
def CompletionItemKindOperator : Int := 24
def CompletionItemKindTypeParameter : Int := 25

def SymbolKindFile : Int := 1
def SymbolKindModule : Int := 2
def SymbolKindNamespace : Int := 3
def SymbolKindPackage : Int := 4
def SymbolKindClass : Int := 5
def SymbolKindMethod : Int := 6
def SymbolKindProperty : Int := 7
def SymbolKindField : Int := 8
def SymbolKindConstructor : Int := 9
def SymbolKindEnum : Int := 10
def SymbolKindInterface : Int := 11
def SymbolKindFunction : Int := 12
def SymbolKindVariable : Int := 13
def SymbolKindConstant : Int := 14
def SymbolKindString : Int := 15
def SymbolKindNumber : Int := 16
def SymbolKindBoolean : Int := 17
def SymbolKindArray : Int := 18
def SymbolKindObject : Int := 19
def SymbolKindKey : Int := 20
def SymbolKindNull : Int := 21
def SymbolKindEnumMember : Int := 22
def SymbolKindStruct : Int := 23
def SymbolKindEvent : Int := 24
def SymbolKindOperator : Int := 25
def SymbolKindTypeParameter : Int := 26

def kindMap : List (String × Int) := [
  ("alias", CompletionItemKindVariable),
  ("arg", CompletionItemKindVariable),
  ("attribute", CompletionItemKindProperty),
  ("boolean", CompletionItemKindConstant),
  ("callback", CompletionItemKindFunction),
  ("category", CompletionItemKindEnum),
  ("ccflag", CompletionItemKindConstant),
  ("cell", CompletionItemKindVariable),
  ("class", CompletionItemKindClass),
  ("collection", CompletionItemKindClass),
  ("command", CompletionItemKindFunction),
  ("component", CompletionItemKindStruct),
  ("config", CompletionItemKindConstant),
  ("const", CompletionItemKindConstant),
  ("constant", CompletionItemKindConstant),
  ("constructor", CompletionItemKindConstructor),
  ("context", CompletionItemKindVariable),
  ("counter", CompletionItemKindVariable),
  ("data", CompletionItemKindVariable),
  ("dataset", CompletionItemKindVariable),
  ("def", CompletionItemKindFunction),
  ("define", CompletionItemKindConstant),
  ("delegate", CompletionItemKindClass),
  ("enum", CompletionItemKindEnum),
  ("enumConstant", CompletionItemKindEnumMember),
  ("enumerator", CompletionItemKindEnum),
  ("environment", CompletionItemKindVariable),
  ("error", CompletionItemKindEnum),
  ("event", CompletionItemKindEvent),
  ("exception", CompletionItemKindClass),
  ("externvar", CompletionItemKindVariable),
  ("face", CompletionItemKindInterface),
  ("feature", CompletionItemKindProperty),
  ("field", CompletionItemKindField),
  ("fn", CompletionItemKindFunction),
  ("fun", CompletionItemKindFunction),
  ("func", CompletionItemKindFunction),
  ("function", CompletionItemKindFunction),
  ("functionVar", CompletionItemKindVariable),
  ("functor", CompletionItemKindClass),
  ("generic", CompletionItemKindTypeParameter),
  ("getter", CompletionItemKindMethod),
  ("global", CompletionItemKindVariable),
  ("globalVar", CompletionItemKindVariable),
  ("group", CompletionItemKindEnum),
  ("guard", CompletionItemKindVariable),
  ("handler", CompletionItemKindFunction),
  ("icon", CompletionItemKindEnum),
  ("id", CompletionItemKindVariable),
  ("implementation", CompletionItemKindClass),
  ("index", CompletionItemKindVariable),
  ("infoitem", CompletionItemKindVariable),
  ("inline", CompletionItemKindKeyword),
  ("inputSection", CompletionItemKindKeyword),
  ("instance", CompletionItemKindVariable),
  ("interface", CompletionItemKindInterface),
  ("it", CompletionItemKindVariable),
  ("jurisdiction", CompletionItemKindVariable),
  ("key", CompletionItemKindKeyword),
  ("keyInMiddle", CompletionItemKindKeyword),
  ("keyword", CompletionItemKindKeyword),
  ("kind", CompletionItemKindKeyword),
  ("l4subsection", CompletionItemKindKeyword),
  ("l5subsection", CompletionItemKindKeyword),
  ("label", CompletionItemKindKeyword),
  ("langdef", CompletionItemKindKeyword),
  ("legal", CompletionItemKindKeyword),
  ("legislation", CompletionItemKindKeyword),
  ("letter", CompletionItemKindKeyword),
  ("library", CompletionItemKindModule),
  ("list", CompletionItemKindVariable),
  ("local", CompletionItemKindVariable),
  ("localVariable", CompletionItemKindVariable),
  ("locale", CompletionItemKindVariable),
  ("localvar", CompletionItemKindVariable),
  ("macro", CompletionItemKindVariable),
  ("macroParameter", CompletionItemKindVariable),
  ("macrofile", CompletionItemKindFile),
  ("macroparam", CompletionItemKindVariable),
  ("makefile", CompletionItemKindFile),
  ("map", CompletionItemKindVariable),
  ("method", CompletionItemKindMethod),
  ("methodSpec", CompletionItemKindMethod),
  ("minorMode", CompletionItemKindKeyword),
  ("misc", CompletionItemKindVariable),
  ("module", CompletionItemKindModule),
  ("name", CompletionItemKindVariable),
  ("namespace", CompletionItemKindModule),
  ("nettype", CompletionItemKindTypeParameter),
  ("newFile", CompletionItemKindFile),
  ("node", CompletionItemKindVariable),
  ("object", CompletionItemKindClass),
  ("oneof", CompletionItemKindEnum),
  ("operator", CompletionItemKindOperator),
  ("option", CompletionItemKindKeyword),
  ("output", CompletionItemKindVariable),
  ("package", CompletionItemKindModule),
  ("param", CompletionItemKindVariable),
  ("parameter", CompletionItemKindVariable),
  ("paramEntity", CompletionItemKindVariable),
  ("part", CompletionItemKindVariable),
  ("pattern", CompletionItemKindKeyword),
  ("placeholder", CompletionItemKindVariable),
  ("port", CompletionItemKindVariable),
  ("process", CompletionItemKindFunction),
  ("property", CompletionItemKindProperty),
  ("prototype", CompletionItemKindVariable),
  ("protocol", CompletionItemKindClass),
  ("provider", CompletionItemKindClass),
  ("publication", CompletionItemKindVariable),
  ("qkey", CompletionItemKindVariable),
  ("receiver", CompletionItemKindVariable),
  ("record", CompletionItemKindStruct),
  ("reference", CompletionItemKindReference),
  ("region", CompletionItemKindVariable),
  ("register", CompletionItemKindVariable),
  ("repoid", CompletionItemKindVariable),
  ("report", CompletionItemKindVariable),
  ("repositoryId", CompletionItemKindVariable),
  ("repr", CompletionItemKindVariable),
  ("resource", CompletionItemKindVariable),
  ("response", CompletionItemKindFunction),
  ("role", CompletionItemKindClass),
  ("rpc", CompletionItemKindVariable),
  ("schema", CompletionItemKindVariable),
  ("script", CompletionItemKindFile),
  ("section", CompletionItemKindKeyword),
  ("selector", CompletionItemKindKeyword),
  ("sequence", CompletionItemKindVariable),
  ("server", CompletionItemKindClass),
  ("service", CompletionItemKindClass),
  ("setter", CompletionItemKindMethod),
  ("signal", CompletionItemKindFunction),
  ("singletonMethod", CompletionItemKindMethod),
  ("slot", CompletionItemKindVariable),
  ("software", CompletionItemKindClass),
  ("sourcefile", CompletionItemKindFile),
  ("standard", CompletionItemKindVariable),
  ("string", CompletionItemKindText),
  ("structure", CompletionItemKindStruct),
  ("stylesheet", CompletionItemKindVariable),
  ("subdir", CompletionItemKindFolder),
  ("submethod", CompletionItemKindMethod),
  ("submodule", CompletionItemKindModule),
  ("subprogram", CompletionItemKindFunction),
  ("subprogspec", CompletionItemKindVariable),
  ("subroutine", CompletionItemKindFunction),
  ("subsection", CompletionItemKindVariable),
  ("subst", CompletionItemKindVariable),
  ("substdef", CompletionItemKindVariable),
  ("tag", CompletionItemKindVariable),
  ("template", CompletionItemKindVariable),
  ("test", CompletionItemKindVariable),
  ("theme", CompletionItemKindVariable),
  ("theorem", CompletionItemKindVariable),
  ("thriftFile", CompletionItemKindFile),
  ("throwsparam", CompletionItemKindVariable),
  ("title", CompletionItemKindVariable),
  ("token", CompletionItemKindVariable),
  ("toplevelVariable", CompletionItemKindVariable),
  ("trait", CompletionItemKindVariable),
  ("type", CompletionItemKindStruct),
  ("typealias", CompletionItemKindVariable),
  ("typedef", CompletionItemKindTypeParameter),
  ("typespec", CompletionItemKindTypeParameter),
  ("union", CompletionItemKindStruct),
  ("unit", CompletionItemKindUnit),
  ("username", CompletionItemKindVariable),
  ("val", CompletionItemKindVariable),
  ("value", CompletionItemKindVariable),
  ("var", CompletionItemKindVariable),
  ("variable", CompletionItemKindVariable),
  ("vector", CompletionItemKindVariable),
  ("version", CompletionItemKindVariable),
  ("video", CompletionItemKindFile),
  ("view", CompletionItemKindVariable),
  ("wrapper", CompletionItemKindVariable),
  ("xdata", CompletionItemKindVariable),
  ("xinput", CompletionItemKindVariable),
  ("xtask", CompletionItemKindVariable)]

def symbolKindMap : List (String × Int) := [
  ("alias", SymbolKindVariable),
  ("arg", SymbolKindVariable),
  ("attribute", SymbolKindProperty),
  ("boolean", SymbolKindConstant),
  ("callback", SymbolKindFunction),
  ("category", SymbolKindEnum),
  ("ccflag", SymbolKindConstant),
  ("cell", SymbolKindVariable),
  ("class", SymbolKindClass),
  ("collection", SymbolKindClass),
  ("command", SymbolKindFunction),
  ("component", SymbolKindStruct),
  ("config", SymbolKindConstant),
  ("const", SymbolKindConstant),
  ("constant", SymbolKindConstant),
  ("constructor", SymbolKindConstructor),
  ("context", SymbolKindVariable),
  ("counter", SymbolKindVariable),
  ("data", SymbolKindVariable),
  ("dataset", SymbolKindVariable),
  ("def", SymbolKindFunction),
  ("define", SymbolKindConstant),
  ("delegate", SymbolKindClass),
  ("enum", SymbolKindEnum),
  ("enumConstant", SymbolKindEnumMember),
  ("enumerator", SymbolKindEnum),
  ("environment", SymbolKindVariable),
  ("error", SymbolKindEnum),
  ("event", SymbolKindEvent),
  ("exception", SymbolKindClass),
  ("externvar", SymbolKindVariable),
  ("face", SymbolKindInterface),
  ("feature", SymbolKindProperty),
  ("field", SymbolKindField),
  ("fn", SymbolKindFunction),
  ("fun", SymbolKindFunction),
  ("func", SymbolKindFunction),
  ("function", SymbolKindFunction),
  ("functionVar", SymbolKindVariable),
  ("functor", SymbolKindClass),
  ("generic", SymbolKindTypeParameter),
  ("getter", SymbolKindMethod),
  ("global", SymbolKindVariable),
  ("globalVar", SymbolKindVariable),
  ("group", SymbolKindEnum),
  ("guard", SymbolKindVariable),
  ("handler", SymbolKindFunction),
  ("icon", SymbolKindEnum),
  ("id", SymbolKindVariable),
  ("implementation", SymbolKindClass),
  ("index", SymbolKindVariable),
  ("infoitem", SymbolKindVariable),
  ("instance", SymbolKindVariable),
  ("interface", SymbolKindInterface),
  ("it", SymbolKindVariable),
  ("jurisdiction", SymbolKindVariable),
  ("library", SymbolKindModule),
  ("list", SymbolKindVariable),
  ("local", SymbolKindVariable),
  ("localVariable", SymbolKindVariable),
  ("locale", SymbolKindVariable),
  ("localvar", SymbolKindVariable),
  ("macro", SymbolKindVariable),
  ("macroParameter", SymbolKindVariable),
  ("macrofile", SymbolKindFile),
  ("macroparam", SymbolKindVariable),
  ("makefile", SymbolKindFile),
  ("map", SymbolKindVariable),
  ("method", SymbolKindMethod),
  ("methodSpec", SymbolKindMethod),
  ("misc", SymbolKindVariable),
  ("module", SymbolKindModule),
  ("name", SymbolKindVariable),
  ("namespace", SymbolKindModule),
  ("nettype", SymbolKindTypeParameter),
  ("newFile", SymbolKindFile),
  ("node", SymbolKindVariable),
  ("object", SymbolKindClass),
  ("oneof", SymbolKindEnum),
  ("operator", SymbolKindOperator),
  ("output", SymbolKindVariable),
  ("package", SymbolKindModule),
  ("param", SymbolKindVariable),
  ("parameter", SymbolKindVariable),
  ("paramEntity", SymbolKindVariable),
  ("part", SymbolKindVariable),
  ("placeholder", SymbolKindVariable),
  ("port", SymbolKindVariable),
  ("process", SymbolKindFunction),
  ("property", SymbolKindProperty),
  ("prototype", SymbolKindVariable),
  ("protocol", SymbolKindClass),
  ("provider", SymbolKindClass),
  ("publication", SymbolKindVariable),
  ("qkey", SymbolKindVariable),
  ("receiver", SymbolKindVariable),
  ("record", SymbolKindStruct),
  ("region", SymbolKindVariable),
  ("register", SymbolKindVariable),
  ("repoid", SymbolKindVariable),
  ("report", SymbolKindVariable),
  ("repositoryId", SymbolKindVariable),
  ("repr", SymbolKindVariable),
  ("resource", SymbolKindVariable),
  ("response", SymbolKindFunction),
  ("role", SymbolKindClass),
  ("rpc", SymbolKindVariable),
  ("schema", SymbolKindVariable),
  ("script", SymbolKindFile),
  ("sequence", SymbolKindVariable),
  ("server", SymbolKindClass),
  ("service", SymbolKindClass),
  ("setter", SymbolKindMethod),
  ("signal", SymbolKindFunction),
  ("singletonMethod", SymbolKindMethod),
  ("slot", SymbolKindVariable),
  ("software", SymbolKindClass),
  ("sourcefile", SymbolKindFile),
  ("standard", SymbolKindVariable),
  ("string", SymbolKindString),
  ("structure", SymbolKindStruct),
  ("stylesheet", SymbolKindVariable),
  ("submethod", SymbolKindMethod),
  ("submodule", SymbolKindModule),
  ("subprogram", SymbolKindFunction),
  ("subprogspec", SymbolKindVariable),
  ("subroutine", SymbolKindFunction),
  ("subsection", SymbolKindVariable),
  ("subst", SymbolKindVariable),
  ("substdef", SymbolKindVariable),
  ("tag", SymbolKindVariable),
  ("template", SymbolKindVariable),
  ("test", SymbolKindVariable),
  ("theme", SymbolKindVariable),
  ("theorem", SymbolKindVariable),
  ("thriftFile", SymbolKindFile),
  ("throwsparam", SymbolKindVariable),
  ("title", SymbolKindVariable),
  ("token", SymbolKindVariable),
  ("toplevelVariable", SymbolKindVariable),
  ("trait", SymbolKindVariable),
  ("type", SymbolKindStruct),
  ("typealias", SymbolKindVariable),
  ("typedef", SymbolKindTypeParameter),
  ("typespec", SymbolKindTypeParameter),
  ("union", SymbolKindStruct),
  ("username", SymbolKindVariable),
  ("val", SymbolKindVariable),
  ("value", SymbolKindVariable),
  ("var", SymbolKindVariable),
  ("variable", SymbolKindVariable),
  ("vector", SymbolKindVariable),
  ("version", SymbolKindVariable),
  ("video", SymbolKindFile),
  ("view", SymbolKindVariable),
  ("wrapper", SymbolKindVariable),
  ("xdata", SymbolKindVariable),
  ("xinput", SymbolKindVariable),
  ("xtask", SymbolKindVariable)]

/-- GetLSPCompletionKind from the Go source: total lookup defaulting to
the generic text category. -/
def GetLSPCompletionKind (ctagsKind : String) : Int :=
  match kindMap.lookup ctagsKind with
  | some kind => kind
  | none => CompletionItemKindText

/-- GetLSPSymbolKind from the Go source: partial lookup; none models
the Go error return for a kind with no symbol category. -/
def GetLSPSymbolKind (ctagsKind : String) : Option Int :=
  symbolKindMap.lookup ctagsKind

/-! ## Document cache

FileCache.content is a Go map from canonical path to line-split text;
it is modelled as an association list observed through lookup (a later
binding for the same key shadows an earlier one, as a map assignment
overwrites).  Disk reads are modelled by a function from path to the
raw file content, none standing for an I/O error. -/

abbrev Cache : Type := List (String × List String)

abbrev Disk : Type := String → Option String

/-- readFileLines from the Go source: read the whole file and split it
on newlines; an I/O error propagates as none (FileReadError). -/
def readFileLines (disk : Disk) (filePath : String) : Option (List String) :=
  match disk filePath with
  | none => none
  | some content => some (goSplit content '\n')

/-- GetOrLoadFileContent from the Go source: return the cached lines,
or on a miss read the file, split it, store it in the cache and return
it.  The result carries the possibly-updated cache; none is the
FileReadError case. -/
def GetOrLoadFileContent (cache : Cache) (disk : Disk) (filePath : String) :
    Option (List String × Cache) :=
  match List.lookup filePath cache with
  | some content => some (content, cache)
  | none =>
    match readFileLines disk filePath with
    | none => none
    | some lines => some (lines, (filePath, lines) :: cache)

/-- handleDidOpen: split the document text on newlines and store it,
replacing any prior entry for the same path. -/
def handleDidOpen (cache : Cache) (uri text : String) : Cache :=
  (uriToPath uri, goSplit text '\n') :: cache

/-- handleDidChange: when the ContentChanges array is non-empty, store
the line-split text of its first element, replacing the entry; when it
is empty, do nothing at all. -/
def handleDidChange (cache : Cache) (uri : String)
    (contentChanges : List String) : Cache :=
  match contentChanges with
  | [] => cache
  | text :: _ => (uriToPath uri, goSplit text '\n') :: cache

/-- handleDidClose: remove the entry for the document. -/
def handleDidClose (cache : Cache) (uri : String) : Cache :=
  List.filter (fun kv => kv.1 ≠ uriToPath uri) cache

/-! ## Word-at-cursor -/

/-- isIdentifierChar from the Go source: ASCII letters, digits,
underscore and dollar. -/
def isIdentifierChar (c : Char) : Bool :=
  ('a' ≤ c && c ≤ 'z') ||
  ('A' ≤ c && c ≤ 'Z') ||
  ('0' ≤ c && c ≤ '9') ||
  c = '_' || c = '$'

/-- Left scan of getCurrentWord: decrement start while the preceding
rune is an identifier rune, structurally on the position. -/
def scanWordStart (runes : List Char) : Nat → Nat
  | 0 => 0
  | n + 1 =>
    if isIdentifierChar (runes.getD n ' ') then scanWordStart runes n
    else n + 1

/-- Right scan of getCurrentWord: advance end while the rune at end is
an identifier rune, i.e. past the identifier run starting at the
position. -/
def scanWordEnd (runes : List Char) (n : Nat) : Nat :=
  n + ((runes.drop n).takeWhile isIdentifierChar).length

/-- Core of getCurrentWord, operating on the lines obtained for the
document: bounds checks as in the Go method, then the two scans; none
models the error returns (line or character out of range, or no word
at the position). -/
def getCurrentWordInLines (lines : List String) (pos : Position) : Option String :=
  if lines.length ≤ pos.line then none
  else
    let runes := (lines.getD pos.line "").toList
    if runes.length < pos.character then none
    else
      let start := scanWordStart runes pos.character
      let stop := scanWordEnd runes pos.character
      if start = stop then none
      else some (String.mk ((runes.drop start).take (stop - start)))

/-- getCurrentWord method of the server: load the document content
through the cache (lazily reading from disk on a miss) and extract the
word at the position.  The error cases of the Go method all collapse
to none; the possibly-grown cache is returned alongside. -/
def serverGetCurrentWord (cache : Cache) (disk : Disk) (uri : String)
    (pos : Position) : Option String × Cache :=
  match GetOrLoadFileContent cache disk (uriToPath uri) with
  | none => (none, cache)
  | some (lines, cache2) => (getCurrentWordInLines lines pos, cache2)

/-! ## Completion -/

/-- The case-insensitive prefix test of the completion loop:
strings.HasPrefix(strings.ToLower(entry.Name), strings.ToLower(word)). -/
def prefixMatches (word : String) (entry : TagEntry) : Bool :=
  goHasPrefixStr (goToLower entry.name) (goToLower word)

/-- The includeEntry decision of the completion loop, hoisted into a
definition: after a dot only method or function items from a file with
the current extension; otherwise text items always, plus items from a
file with the current extension. -/
def includeEntryB (rootPath currentFileExt : String) (isAfterDot : Bool)
    (entry : TagEntry) : Bool :=
  let kind := GetLSPCompletionKind entry.kind
  let entryFileExt := filepathExt (goJoin rootPath entry.path)
  if isAfterDot then
    (kind == CompletionItemKindMethod || kind == CompletionItemKindFunction)
      && entryFileExt == currentFileExt
  else
    kind == CompletionItemKindText || entryFileExt == currentFileExt

/-- The CompletionItem built for an included entry, with the detail
string path:line (kind) and the pattern as plaintext documentation. -/
def mkCompletionItem (entry : TagEntry) : CompletionItem :=
  { label := entry.name
    kind := GetLSPCompletionKind entry.kind
    detail := entry.path ++ ":" ++ intToStr entry.line ++ " (" ++ entry.kind ++ ")"
    documentation := { kind := "plaintext", value := entry.pattern } }

/-- The entry loop of handleCompletion: prefix match, then the seen-set
dedup check, then the includeEntry decision; an emitted entry marks its
name as seen. -/
def completionLoop (rootPath currentFileExt word : String) (isAfterDot : Bool) :
    List TagEntry → List String → List CompletionItem
  | [], _ => []
  | entry :: rest, seen =>
    if prefixMatches word entry then
      if entry.name ∈ seen then
        completionLoop rootPath currentFileExt word isAfterDot rest seen
      else if includeEntryB rootPath currentFileExt isAfterDot entry then
        mkCompletionItem entry ::
          completionLoop rootPath currentFileExt word isAfterDot rest (entry.name :: seen)
      else completionLoop rootPath currentFileExt word isAfterDot rest seen
    else completionLoop rootPath currentFileExt word isAfterDot rest seen

/-- The dot heuristic of handleCompletion: the rune immediately before
the cursor exists and is a literal period. -/
def isAfterDotIn (lines : List String) (pos : Position) : Bool :=
  let runes := (lines.getD pos.line "").toList
  decide (0 < pos.character) && decide (pos.character - 1 < runes.length)
    && (runes.getD (pos.character - 1) ' ' == '.')

/-- Outcome of a completion request: a result list or the internal
error the handler sends when the document is not cached or the line is
out of range. -/
inductive CompletionOutcome where
  | ok (items : List CompletionItem)
  | internalError (data : String)
deriving DecidableEq, Repr

/-- Parameters of a completion request. -/
structure CompletionParams where
  uri : String
  position : Position
deriving DecidableEq, Repr

/-- handleCompletion from the Go source: a direct cache lookup (no
lazy load) guards the dot heuristic, an unresolvable word yields an
empty list, and otherwise the entry loop runs over the symbol index.
The possibly-updated cache is returned alongside the outcome. -/
def handleCompletion (tagEntries : List TagEntry) (rootPath : String)
    (cache : Cache) (disk : Disk) (params : CompletionParams) :
    CompletionOutcome × Cache :=
  let currentFilePath := uriToPath params.uri
  let currentFileExt := filepathExt currentFilePath
  match List.lookup currentFilePath cache with
  | none => (CompletionOutcome.internalError "Line out of range", cache)
  | some lines =>
    if lines.length ≤ params.position.line then
      (CompletionOutcome.internalError "Line out of range", cache)
    else
      let isAfterDot := isAfterDotIn lines params.position
      match serverGetCurrentWord cache disk params.uri params.position with
      | (none, cache2) => (CompletionOutcome.ok [], cache2)
      | (some word, cache2) =>
        (CompletionOutcome.ok
          (completionLoop rootPath currentFileExt word isAfterDot tagEntries []),
         cache2)

/-! ## Symbol index and the per-file rescan

The index is the insertion-ordered tagEntries slice.  scanSingleFileTag
removes the records of the rescanned path inside one critical section,
releases the lock, runs the external scan, and appends the freshly
ingested records inside a second critical section
(processTagsOutput). -/

/-- The records an index holds for one workspace-relative path. -/
def recordsFor (index : List TagEntry) (p : String) : List TagEntry :=
  List.filter (fun e => e.path == p) index

/-- First critical section of scanSingleFileTag: drop every record of
the rescanned path. -/
def rescanRemoveStep (index : List TagEntry) (relPath : String) : List TagEntry :=
  List.filter (fun e => e.path != relPath) index

/-- Second critical section (the append of processTagsOutput) composed
after the removal: the overall state transformation of a successful
per-file rescan. -/
def scanSingleFileTag (index : List TagEntry) (relPath : String)
    (fresh : List TagEntry) : List TagEntry :=
  rescanRemoveStep index relPath ++ fresh

/-- The index states a concurrent reader can observe during a per-file
rescan: the lock is held separately for the removal and for the
append, with the external scan between them, so readers serialize
before the removal, between the two critical sections, or after the
append. -/
def rescanStates (index : List TagEntry) (relPath : String)
    (fresh : List TagEntry) : List (List TagEntry) :=
  [index, rescanRemoveStep index relPath, scanSingleFileTag index relPath fresh]

/-! ## Symbol range heuristic -/

/-- Index of the first occurrence of needle as a contiguous sublist of
hay, in runes; strings.Index semantics (an empty needle occurs at 0).
Go reports a byte offset, recovered below via utf8Len; by UTF-8
self-synchronization every byte-level occurrence of a valid encoded
needle is rune-aligned, so the rune-level search finds the same
occurrence. -/
def firstOccur (needle : List Char) : List Char → Option Nat
  | [] => if needle = [] then some 0 else none
  | c :: rest =>
    if needle.isPrefixOf (c :: rest) then some 0
    else (firstOccur needle rest).map (fun k => k + 1)

/-- findSymbolRangeInFile from the Go source: 1-based line to 0-based
index; out of bounds yields a zero-width range at that index; a found
symbol yields the span from its byte offset over its rune length; an
absent symbol yields a span over the whole line. -/
def findSymbolRangeInFile (lines : List String) (symbolName : String)
    (lineNumber : Int) : Range :=
  let lineIdx := lineNumber - 1
  if lineIdx < 0 ∨ (lines.length : Int) ≤ lineIdx then
    { start := { line := lineIdx, character := 0 }
      «end» := { line := lineIdx, character := 0 } }
  else
    let lineContent := lines.getD lineIdx.toNat ""
    match firstOccur symbolName.toList lineContent.toList with
    | none =>
      { start := { line := lineIdx, character := 0 }
        «end» := { line := lineIdx, character := (lineContent.toList.length : Int) } }
    | some k =>
      let startChar : Int := (utf8Len (lineContent.toList.take k) : Int)
      { start := { line := lineIdx, character := startChar }
        «end» := { line := lineIdx, character := startChar + (symbolName.toList.length : Int) } }

/-! ## Workspace symbol handler -/

/-- The entry loop of handleWorkspaceSymbol: exact name equality with
the query, skip on an unmapped symbol kind, lazily load the file
content (skipping the entry on a read error), and emit the symbol with
its heuristic range and containing scope.  The cache grown by the lazy
loads is threaded through and returned. -/
def workspaceSymbolLoop (rootPath : String) (disk : Disk) (query : String) :
    List TagEntry → Cache → List SymbolInformation × Cache
  | [], cache => ([], cache)
  | entry :: rest, cache =>
    if entry.name = query then
      match GetLSPSymbolKind entry.kind with
      | none => workspaceSymbolLoop rootPath disk query rest cache
      | some kind =>
        let filePath := goJoin rootPath entry.path
        match GetOrLoadFileContent cache disk filePath with
        | none => workspaceSymbolLoop rootPath disk query rest cache
        | some (content, cache2) =>
          let symbolRange := findSymbolRangeInFile content entry.name entry.line
          let res := workspaceSymbolLoop rootPath disk query rest cache2
          ({ name := entry.name, kind := kind, uri := filepathToURI filePath
             range := symbolRange, containerName := entry.scope } :: res.1, res.2)
    else workspaceSymbolLoop rootPath disk query rest cache

/-! ## Legacy tagfile parser

tagfile_parser.go parses a flat ctags tagfile into the same TagEntry
shape.  The helper tagfilePathToRootRelative that it calls is not among
the provided sources; parseTagfileFields therefore takes the
relativization as an explicit function argument (some = the
workspace-relative path, none = the record is dropped, which is all
the spec requires of it). -/

/-- tagfileKindMap from the Go source: per-language and default letter
tables plus the set of registered kind names, as association lists and
a name list. -/
structure TagfileKindMap where
  byLanguage : List (String × List (String × String))
  any : List (String × String)
  kindNames : List String
deriving DecidableEq, Repr

/-- resolve method of tagfileKindMap: the language-specific table
first, then the default table, else failure. -/
def TagfileKindMap.resolve (m : TagfileKindMap) (language letter : String) :
    Option String :=
  match
    (if language ≠ "" then
      match List.lookup language m.byLanguage with
      | some byLang => List.lookup letter byLang
      | none => none
    else none) with
  | some kind => some kind
  | none => List.lookup letter m.any

/-- isKindName method of tagfileKindMap. -/
def TagfileKindMap.isKindName (m : TagfileKindMap) (kind : String) : Bool :=
  m.kindNames.contains kind

/-- resolveTagfileKind from the Go source: a kind field of exactly one
byte resolves through the tables, falling back to the raw field.  Go
measures len in bytes, hence utf8Len. -/
def resolveTagfileKind (kindField : String) (entry : TagEntry)
    (kindMap : TagfileKindMap) : String :=
  if utf8Len kindField.toList ≠ 1 then kindField
  else
    match kindMap.resolve entry.language kindField with
    | some mapped => mapped
    | none => kindField

/-- One iteration of the extension-field loop of parseTagfileEntry,
acting on the entry under construction and the pending kind field. -/
def tagfileExtStep (kindMap : TagfileKindMap) (field : String) :
    TagEntry × String → TagEntry × String
  | (entry, kindField) =>
    if field = "" then (entry, kindField)
    else
      match cutColon field with
      | none => (entry, kindField)
      | some (key, value) =>
        if key = "line" then
          match goAtoi value with
          | some lineNum => ({ entry with line := lineNum }, kindField)
          | none => (entry, kindField)
        else if key = "language" then ({ entry with language := value }, kindField)
        else if key = "kind" then (entry, value)
        else if key = "typeref" then ({ entry with typeref := value }, kindField)
        else if key = "scope" then ({ entry with scope := value }, kindField)
        else if key = "scopeKind" then ({ entry with scopeKind := value }, kindField)
        else if entry.scope = "" ∧ entry.scopeKind = "" ∧ kindMap.isKindName key then
          ({ entry with scopeKind := key, scope := value }, kindField)
        else (entry, kindField)

/-- The extension-field loop of parseTagfileEntry. -/
def tagfileExtLoop (kindMap : TagfileKindMap) :
    List String → TagEntry × String → TagEntry × String
  | [], st => st
  | field :: rest, st => tagfileExtLoop kindMap rest (tagfileExtStep kindMap field st)

/-- parseTagfileEntry from the Go source, over the tab-split fields of
a data line: fewer than three fields is invalid; a fourth field with no
colon is the bare kind letter; the remaining fields run through the
extension loop; an entry still without a line number takes one from the
address field only when the whole trimmed address parses as a decimal
integer (strconv.Atoi); a pending kind field resolves through the kind
tables; finally the path is relativized or the record dropped. -/
def parseTagfileFields (fields : List String)
    (relativize : String → Option String) (kindMap : TagfileKindMap) :
    Option TagEntry :=
  match fields with
  | f0 :: f1 :: f2 :: rest =>
    let entry0 : TagEntry :=
      { type := "tag", name := f0, path := f1, pattern := goTrimPatternSuffix f2
        kind := "", line := 0, scope := "", scopeKind := "", typeref := ""
        language := "" }
    let firstSplit : String × List String :=
      match rest with
      | f3 :: rest2 =>
        if f3.toList.contains ':' then ("", f3 :: rest2) else (f3, rest2)
      | [] => ("", [])
    let looped := tagfileExtLoop kindMap firstSplit.2 (entry0, firstSplit.1)
    let entry1 := looped.1
    let kindField := looped.2
    let entry2 :=
      if entry1.line = 0 then
        match goAtoi entry1.pattern with
        | some lineNum => { entry1 with line := lineNum }
        | none => entry1
      else entry1
    let entry3 :=
      if kindField ≠ "" then
        { entry2 with kind := resolveTagfileKind kindField entry2 kindMap }
      else entry2
    match relativize entry3.path with
    | some relPath => some { entry3 with path := relPath }
    | none => none
  | _ => none

/-- parseTagfileEntry on a raw line: split on tabs first, as the Go
function does. -/
def parseTagfileEntry (line : String) (relativize : String → Option String)
    (kindMap : TagfileKindMap) : Option TagEntry :=
  parseTagfileFields (goSplit line '\t') relativize kindMap

/-! ## Helper lemmas -/

/-- A concrete TagEntry builder used by witnesses and counterexamples. -/
def mkTag (name path kind : String) (line : Int) : TagEntry :=
  { type := "tag", name := name, path := path, pattern := "", kind := kind
    line := line, scope := "", scopeKind := "", typeref := "", language := "" }

lemma recordsFor_append (l1 l2 : List TagEntry) (p : String) :
    recordsFor (l1 ++ l2) p = recordsFor l1 p ++ recordsFor l2 p := by
  simp [recordsFor, List.filter_append]

lemma recordsFor_cons (e : TagEntry) (l : List TagEntry) (p : String) :
    recordsFor (e :: l) p =
      if e.path = p then e :: recordsFor l p else recordsFor l p := by
  by_cases h : e.path = p <;> simp [recordsFor, List.filter_cons, h]

lemma rescanRemoveStep_cons (e : TagEntry) (l : List TagEntry) (relPath : String) :
    rescanRemoveStep (e :: l) relPath =
      if e.path = relPath then rescanRemoveStep l relPath
      else e :: rescanRemoveStep l relPath := by
  by_cases h : e.path = relPath <;> simp [rescanRemoveStep, List.filter_cons, h]

lemma recordsFor_rescanRemoveStep (index : List TagEntry) (relPath : String) :
    recordsFor (rescanRemoveStep index relPath) relPath = [] := by
  induction index with
  | nil => rfl
  | cons e rest ih =>
    rw [rescanRemoveStep_cons]
    by_cases h : e.path = relPath
    · rw [if_pos h]; exact ih
    · rw [if_neg h, recordsFor_cons, if_neg h]; exact ih

lemma recordsFor_rescanRemoveStep_ne (index : List TagEntry) (relPath p : String)
    (hp : p ≠ relPath) :
    recordsFor (rescanRemoveStep index relPath) p = recordsFor index p := by
  induction index with
  | nil => rfl
  | cons e rest ih =>
    rw [rescanRemoveStep_cons]
    by_cases h : e.path = relPath
    · have h2 : ¬ e.path = p := fun hc => hp (h ▸ hc ▸ rfl)
      rw [if_pos h, recordsFor_cons, if_neg h2]
      exact ih
    · rw [if_neg h, recordsFor_cons, recordsFor_cons]
      by_cases h3 : e.path = p
      · rw [if_pos h3, if_pos h3, ih]
      · rw [if_neg h3, if_neg h3]; exact ih

lemma recordsFor_of_all_eq (fresh : List TagEntry) (relPath : String) :
    (∀ e ∈ fresh, e.path = relPath) → recordsFor fresh relPath = fresh := by
  induction fresh with
  | nil => intro _; rfl
  | cons e rest ih =>
    intro h
    have he : e.path = relPath := h e (List.mem_cons_self e rest)
    rw [recordsFor_cons, if_pos he,
      ih (fun f hf => h f (List.mem_cons_of_mem e hf))]

lemma recordsFor_of_all_ne (fresh : List TagEntry) (relPath p : String)
    (hp : p ≠ relPath) : (∀ e ∈ fresh, e.path = relPath) →
    recordsFor fresh p = [] := by
  induction fresh with
  | nil => intro _; rfl
  | cons e rest ih =>
    intro h
    have he : e.path = relPath := h e (List.mem_cons_self e rest)
    have h2 : ¬ e.path = p := fun hc => hp (he ▸ hc ▸ rfl)
    rw [recordsFor_cons, if_neg h2]
    exact ih fun f hf => h f (List.mem_cons_of_mem e hf)

/-! ## Claims -/

/-- C10: a textDocument/didChange notification whose ContentChanges
array is empty leaves the document cache entirely unchanged — no entry
is created, replaced, or removed for any document. -/
theorem spec_c10_didChange_empty_noop : ∀ (cache : Cache) (uri : String),
    handleDidChange cache uri [] = cache ∧
    ∀ p, List.lookup p (handleDidChange cache uri []) = List.lookup p cache :=
  fun _ _ => ⟨rfl, fun _ => rfl⟩

/-- C3 counterexample: on the cached line "foo.bar_baz" at zero-based
offset 3 (the period), getCurrentWord does not fail: the left scan
walks over the identifier characters of "foo" and the word "foo" is
returned, contradicting the claimed NoWordAtPosition outcome. -/
theorem spec_c3_counterexample :
    getCurrentWordInLines ["foo.bar_baz"] ⟨0, 3⟩ = some "foo" ∧
    getCurrentWordInLines ["foo.bar_baz"] ⟨0, 3⟩ ≠ none := by decide

/-- C3 amended: getCurrentWord on the cached line "foo.bar_baz"
returns "bar_baz" at offset 4 and "foo" at offset 0; at offset 3 (the
period) it returns "foo", the identifier ending immediately before the
period, rather than failing with NoWordAtPosition. -/
theorem spec_c3_word_at_cursor :
    getCurrentWordInLines ["foo.bar_baz"] ⟨0, 4⟩ = some "bar_baz" ∧
    getCurrentWordInLines ["foo.bar_baz"] ⟨0, 0⟩ = some "foo" ∧
    getCurrentWordInLines ["foo.bar_baz"] ⟨0, 3⟩ = some "foo" := by decide

/-- C2 counterexample: a reader serialized between the two critical
sections of a per-file rescan observes the intermediate index state, in
which the rescanned path holds neither the old record set nor the new
one (its records are gone entirely), so the final replacement is not
observed atomically. -/
theorem spec_c2_counterexample :
    rescanRemoveStep [mkTag "f" "a.rb" "function" 1] "a.rb" ∈
      rescanStates [mkTag "f" "a.rb" "function" 1] "a.rb" [mkTag "g" "a.rb" "function" 2] ∧
    recordsFor (rescanRemoveStep [mkTag "f" "a.rb" "function" 1] "a.rb") "a.rb" ≠
      recordsFor [mkTag "f" "a.rb" "function" 1] "a.rb" ∧
    recordsFor (rescanRemoveStep [mkTag "f" "a.rb" "function" 1] "a.rb") "a.rb" ≠
      [mkTag "g" "a.rb" "function" 2] := by decide

/-- C2 amended: the per-file rescan is not one atomic replacement; the
removal and the append are separate critical sections, and in the
observable state between them the rescanned path has no records at
all.  Each individual critical section is atomic, but a concurrent
reader can see the empty intermediate record set for that path. -/
theorem spec_c2_rescan_not_atomic :
    ∀ (index : List TagEntry) (relPath : String) (fresh : List TagEntry),
    rescanRemoveStep index relPath ∈ rescanStates index relPath fresh ∧
    recordsFor (rescanRemoveStep index relPath) relPath = [] :=
  fun index relPath fresh =>
    ⟨by simp [rescanStates], recordsFor_rescanRemoveStep index relPath⟩

/-- C1: a per-file rescan whose fresh ingestion reports records only
for the rescanned path changes exactly that path's records: every
other path keeps its record list unchanged, and the rescanned path
afterwards holds exactly the freshly ingested records. -/
theorem spec_c1_rescan_frame :
    ∀ (index : List TagEntry) (relPath : String) (fresh : List TagEntry),
    (∀ e ∈ fresh, e.path = relPath) →
    (∀ p, p ≠ relPath →
      recordsFor (scanSingleFileTag index relPath fresh) p = recordsFor index p) ∧
    recordsFor (scanSingleFileTag index relPath fresh) relPath = fresh := by
  intro index relPath fresh hfresh
  constructor
  · intro p hp
    rw [scanSingleFileTag, recordsFor_append,
      recordsFor_rescanRemoveStep_ne index relPath p hp,
      recordsFor_of_all_ne fresh relPath p hp hfresh, List.append_nil]
  · rw [scanSingleFileTag, recordsFor_append,
      recordsFor_rescanRemoveStep index relPath,
      recordsFor_of_all_eq fresh relPath hfresh, List.nil_append]

/-- Index of the worked example of C1: three records for a.rb and two
for b.rb. -/
def exampleIndexC1 : List TagEntry :=
  [mkTag "a1" "a.rb" "function" 1, mkTag "a2" "a.rb" "function" 2,
   mkTag "a3" "a.rb" "function" 3, mkTag "b1" "b.rb" "function" 1,
   mkTag "b2" "b.rb" "function" 2]

/-- Fresh ingestion of the worked example of C1: one record for a.rb. -/
def exampleFreshC1 : List TagEntry := [mkTag "a9" "a.rb" "function" 9]

/-- C1 witness: the worked example of the claim — rescanning a.rb, the
b.rb records are unchanged, a.rb holds exactly the one fresh record,
and 1 + 2 = 3 records remain. -/
theorem spec_c1_rescan_frame_witness :
    recordsFor (scanSingleFileTag exampleIndexC1 "a.rb" exampleFreshC1) "b.rb" =
      recordsFor exampleIndexC1 "b.rb" ∧
    recordsFor (scanSingleFileTag exampleIndexC1 "a.rb" exampleFreshC1) "a.rb" =
      exampleFreshC1 ∧
    (scanSingleFileTag exampleIndexC1 "a.rb" exampleFreshC1).length = 3 :=
  ⟨(spec_c1_rescan_frame exampleIndexC1 "a.rb" exampleFreshC1 (by decide)).1
      "b.rb" (by decide),
   (spec_c1_rescan_frame exampleIndexC1 "a.rb" exampleFreshC1 (by decide)).2,
   by decide⟩

/-- The empty kind resolution table, used to instantiate tagfile
claims. -/
def emptyTagfileKindMap : TagfileKindMap :=
  { byLanguage := [], any := [], kindNames := [] }

/-- C5 counterexample: a data line with no line extension field and a
delimited search pattern address containing the digit run 42 parses to
an entry whose line number is 0, not 42: the parser applies
strconv.Atoi to the whole trimmed address and never extracts an
embedded digit run. -/
theorem spec_c5_counterexample :
    Option.map TagEntry.line
      (parseTagfileEntry "foo\ta.rb\t/^x 42 y$/;\"" some emptyTagfileKindMap) =
      some 0 ∧
    Option.map TagEntry.line
      (parseTagfileEntry "foo\ta.rb\t/^x 42 y$/;\"" some emptyTagfileKindMap) ≠
      some 42 := by decide

/-- First member of the pair built by one extension-field step is the
entry; its pattern field is never written by the loop. -/
lemma tagfileExtStep_pattern (km : TagfileKindMap) (field : String)
    (entry : TagEntry) (kindField : String) :
    (tagfileExtStep km field (entry, kindField)).1.pattern = entry.pattern := by
  dsimp only [tagfileExtStep]
  repeat' split
  all_goals rfl

/-- One extension-field step leaves the line field unchanged when the
field does not carry the key line. -/
lemma tagfileExtStep_line (km : TagfileKindMap) (field : String)
    (entry : TagEntry) (kindField : String)
    (hno : ∀ v, cutColon field ≠ some ("line", v)) :
    (tagfileExtStep km field (entry, kindField)).1.line = entry.line := by
  dsimp only [tagfileExtStep]
  split
  · rfl
  · split
    · rfl
    · rename_i key value heq
      by_cases hk : key = "line"
      · subst hk
        exact absurd heq (hno value)
      · rw [if_neg hk]
        repeat' split
        all_goals rfl

lemma tagfileExtLoop_pattern (km : TagfileKindMap) :
    ∀ (fields : List String) (entry : TagEntry) (kindField : String),
    (tagfileExtLoop km fields (entry, kindField)).1.pattern = entry.pattern := by
  intro fields
  induction fields with
  | nil => intro entry kf; rfl
  | cons field rest ih =>
    intro entry kf
    simp only [tagfileExtLoop]
    exact (ih (tagfileExtStep km field (entry, kf)).1
        (tagfileExtStep km field (entry, kf)).2).trans
      (tagfileExtStep_pattern km field entry kf)

/-- The extension-field loop leaves the line field unchanged when no
field carries the key line — the no-explicit-line-field condition of
the spec. -/
lemma tagfileExtLoop_line (km : TagfileKindMap) :
    ∀ (fields : List String) (entry : TagEntry) (kindField : String),
    (∀ field ∈ fields, ∀ v, cutColon field ≠ some ("line", v)) →
    (tagfileExtLoop km fields (entry, kindField)).1.line = entry.line := by
  intro fields
  induction fields with
  | nil => intro entry kf _; rfl
  | cons field rest ih =>
    intro entry kf h
    simp only [tagfileExtLoop]
    exact (ih (tagfileExtStep km field (entry, kf)).1
        (tagfileExtStep km field (entry, kf)).2
        (fun f hf v => h f (List.mem_cons_of_mem field hf) v)).trans
      (tagfileExtStep_line km field entry kf
        (fun v => h field (List.mem_cons_self field rest) v))

/-- The entry parseTagfileEntry constructs from the first three fields
of a data line, before the extension loop runs. -/
def tagfileEntry0 (name path addr : String) : TagEntry :=
  { type := "tag", name := name, path := path
    pattern := goTrimPatternSuffix addr, kind := "", line := 0, scope := ""
    scopeKind := "", typeref := "", language := "" }

/-- Tail of parseTagfileFields after the extension-field loop: the
address-field line fallback, the kind resolution, and the path
relativization, verbatim from the source. -/
def parseTagfileFinish (looped : TagEntry × String)
    (relativize : String → Option String) (km : TagfileKindMap) :
    Option TagEntry :=
  let entry1 := looped.1
  let kindField := looped.2
  let entry2 :=
    if entry1.line = 0 then
      match goAtoi entry1.pattern with
      | some lineNum => { entry1 with line := lineNum }
      | none => entry1
    else entry1
  let entry3 :=
    if kindField ≠ "" then
      { entry2 with kind := resolveTagfileKind kindField entry2 km }
    else entry2
  match relativize entry3.path with
  | some relPath => some { entry3 with path := relPath }
  | none => none

/-- parseTagfileFields on a data line with at least three fields is
the finish applied to the extension-field loop, for some sublist of
the trailing fields (all of them, or all but a bare kind letter). -/
lemma parseTagfileFields_eq_finish :
    ∀ (name path addr : String) (rest : List String)
      (relativize : String → Option String) (km : TagfileKindMap),
    ∃ extFields kf0, (∀ f ∈ extFields, f ∈ rest) ∧
      parseTagfileFields (name :: path :: addr :: rest) relativize km =
        parseTagfileFinish
          (tagfileExtLoop km extFields (tagfileEntry0 name path addr, kf0))
          relativize km := by
  intro name path addr rest relativize km
  cases rest with
  | nil =>
    exact ⟨[], "", fun f hf => absurd hf (List.not_mem_nil f), rfl⟩
  | cons f3 rest2 =>
    by_cases hc : f3.toList.contains ':' = true
    · refine ⟨f3 :: rest2, "", fun f hf => hf, ?_⟩
      simp only [parseTagfileFields, parseTagfileFinish, tagfileEntry0, if_pos hc]
    · refine ⟨rest2, f3, fun f hf => List.mem_cons_of_mem f3 hf, ?_⟩
      simp only [parseTagfileFields, parseTagfileFinish, tagfileEntry0, if_neg hc]

/-- The finish determines the line field: with the loop having left it
at 0, the parsed entry takes its line from the whole-pattern Atoi, or
keeps 0 when that fails. -/
lemma parseTagfileFinish_line (entry1 : TagEntry) (kindField : String)
    (relativize : String → Option String) (km : TagfileKindMap) (e : TagEntry)
    (hline : entry1.line = 0)
    (h : parseTagfileFinish (entry1, kindField) relativize km = some e) :
    e.line = (match goAtoi entry1.pattern with | some n => n | none => 0) := by
  simp only [parseTagfileFinish] at h
  rw [if_pos hline] at h
  cases hA : goAtoi entry1.pattern with
  | some n =>
    rw [hA] at h
    try dsimp only at h
    by_cases hkf : kindField ≠ ""
    · rw [if_pos hkf] at h
      try dsimp only at h
      cases hr : relativize entry1.path with
      | none => rw [hr] at h; exact absurd h (by simp)
      | some rp =>
        rw [hr] at h
        rw [Option.some_inj] at h
        rw [← h]
    · rw [if_neg hkf] at h
      try dsimp only at h
      cases hr : relativize entry1.path with
      | none => rw [hr] at h; exact absurd h (by simp)
      | some rp =>
        rw [hr] at h
        rw [Option.some_inj] at h
        rw [← h]
  | none =>
    rw [hA] at h
    try dsimp only at h
    by_cases hkf : kindField ≠ ""
    · rw [if_pos hkf] at h
      try dsimp only at h
      cases hr : relativize entry1.path with
      | none => rw [hr] at h; exact absurd h (by simp)
      | some rp =>
        rw [hr] at h
        rw [Option.some_inj] at h
        rw [← h]
        exact hline
    · rw [if_neg hkf] at h
      try dsimp only at h
      cases hr : relativize entry1.path with
      | none => rw [hr] at h; exact absurd h (by simp)
      | some rp =>
        rw [hr] at h
        rw [Option.some_inj] at h
        rw [← h]
        exact hline

/-- C5 amended: on every successfully parsed data line — with or
without a bare kind letter and key:value extension fields — that has
no explicit key:value line field, the line number comes from the
address field only when the whole trimmed address parses as a decimal
integer (a literal line-number address); a delimited search pattern
never yields a line number — the entry keeps the zero value 0 —
regardless of any digit runs embedded in the pattern. -/
theorem spec_c5_address_line :
    ∀ (name path addr : String) (rest : List String)
      (relativize : String → Option String) (km : TagfileKindMap) (e : TagEntry),
    (∀ field ∈ rest, ∀ v, cutColon field ≠ some ("line", v)) →
    parseTagfileFields (name :: path :: addr :: rest) relativize km = some e →
    (∀ n, goAtoi (goTrimPatternSuffix addr) = some n → e.line = n) ∧
    (goAtoi (goTrimPatternSuffix addr) = none → e.line = 0) := by
  intro name path addr rest relativize km e hno h
  obtain ⟨extFields, kf0, hsub, heq⟩ :=
    parseTagfileFields_eq_finish name path addr rest relativize km
  rw [heq] at h
  have hline1 :
      (tagfileExtLoop km extFields (tagfileEntry0 name path addr, kf0)).1.line = 0 := by
    rw [tagfileExtLoop_line km extFields (tagfileEntry0 name path addr) kf0
      (fun f hf v => hno f (hsub f hf) v)]
    rfl
  have hfin := parseTagfileFinish_line
    (tagfileExtLoop km extFields (tagfileEntry0 name path addr, kf0)).1
    (tagfileExtLoop km extFields (tagfileEntry0 name path addr, kf0)).2
    relativize km e hline1 h
  rw [tagfileExtLoop_pattern km extFields (tagfileEntry0 name path addr) kf0,
    show (tagfileEntry0 name path addr).pattern = goTrimPatternSuffix addr from rfl]
    at hfin
  constructor
  · intro n hn
    rw [hn] at hfin
    exact hfin
  · intro hn
    rw [hn] at hfin
    exact hfin

/-- Entry parsed from a data line whose address field is the literal
line number 42. -/
def tagfileLineLiteral : TagEntry :=
  { type := "tag", name := "foo", path := "a.rb", pattern := "42", kind := ""
    line := 42, scope := "", scopeKind := "", typeref := "", language := "" }

/-- Entry parsed from a data line whose address field is a delimited
search pattern. -/
def tagfilePatternAddr : TagEntry :=
  { type := "tag", name := "foo", path := "a.rb", pattern := "/^def foo$/"
    kind := "", line := 0, scope := "", scopeKind := "", typeref := ""
    language := "" }

/-- Entry parsed from a data line with a search-pattern address, a
bare kind letter and a language extension field. -/
def tagfilePatternAddrExt : TagEntry :=
  { type := "tag", name := "foo", path := "a.rb", pattern := "/^def foo$/"
    kind := "f", line := 0, scope := "", scopeKind := "", typeref := ""
    language := "Ruby" }

/-- C5 amended witness: a literal line-number address 42 yields line
42; a delimited search pattern address yields line 0, both on a bare
three-field line and on a line carrying a bare kind letter and a
language extension field. -/
theorem spec_c5_address_line_witness :
    tagfileLineLiteral.line = 42 ∧ tagfilePatternAddr.line = 0 ∧
    tagfilePatternAddrExt.line = 0 :=
  ⟨(spec_c5_address_line "foo" "a.rb" "42;\"" [] some emptyTagfileKindMap
      tagfileLineLiteral (fun f hf => absurd hf (List.not_mem_nil f))
      (by decide)).1 42 (by decide),
   (spec_c5_address_line "foo" "a.rb" "/^def foo$/;\"" [] some emptyTagfileKindMap
      tagfilePatternAddr (fun f hf => absurd hf (List.not_mem_nil f))
      (by decide)).2 (by decide),
   (spec_c5_address_line "foo" "a.rb" "/^def foo$/;\"" ["f", "language:Ruby"]
      some emptyTagfileKindMap tagfilePatternAddrExt
      (by
        intro f hf v hcv
        simp only [List.mem_cons, List.not_mem_nil, or_false] at hf
        rcases hf with rfl | rfl
        · rw [(by decide : cutColon "f" = none)] at hcv
          exact Option.noConfusion hcv
        · rw [(by decide : cutColon "language:Ruby" = some ("language", "Ruby"))]
            at hcv
          rw [Option.some_inj, Prod.mk.injEq] at hcv
          exact absurd hcv.1 (by decide))
      (by decide)).2 (by decide)⟩

/-- Disk model for the C4 scenario: exactly one readable file. -/
def diskC4 : Disk := fun p => if p = "/ws/a.rb" then some "x" else none

/-- C4 counterexample: a completion request for a document that is not
in the cache does not lazily load it, even though the file is readable
on disk: the handler answers with an internal error and leaves the
cache empty, while GetOrLoadFileContent on the same path would have
loaded and cached the content. -/
theorem spec_c4_counterexample :
    handleCompletion [] "/ws" [] diskC4
        { uri := "file:///ws/a.rb", position := { line := 0, character := 0 } } =
      (CompletionOutcome.internalError "Line out of range", []) ∧
    GetOrLoadFileContent [] diskC4 "/ws/a.rb" =
      some (["x"], [("/ws/a.rb", ["x"])]) := by decide

/-- C4 amended: the lazy-load contract holds for the handlers that go
through GetOrLoadFileContent (definition, workspace-symbol,
document-symbol and the word lookup): a cache hit returns the cached
lines unchanged, a miss with readable content loads, splits and caches
the lines, and only an I/O failure yields FileReadError (none),
confined to the call.  The completion handler, by contrast, requires
the requesting document to be cached already: its direct cache lookup
answers a miss with an internal error and performs no load. -/
theorem spec_c4_lazy_load : ∀ (cache : Cache) (disk : Disk) (p : String),
    (∀ lines, List.lookup p cache = some lines →
      GetOrLoadFileContent cache disk p = some (lines, cache)) ∧
    (List.lookup p cache = none → ∀ text, disk p = some text →
      GetOrLoadFileContent cache disk p =
        some (goSplit text '\n', (p, goSplit text '\n') :: cache) ∧
      List.lookup p ((p, goSplit text '\n') :: cache) = some (goSplit text '\n')) ∧
    (List.lookup p cache = none → disk p = none →
      GetOrLoadFileContent cache disk p = none) ∧
    (∀ (entries : List TagEntry) (rootPath : String) (params : CompletionParams),
      List.lookup (uriToPath params.uri) cache = none →
      handleCompletion entries rootPath cache disk params =
        (CompletionOutcome.internalError "Line out of range", cache)) := by
  intro cache disk p
  refine ⟨?_, ?_, ?_, ?_⟩
  · intro lines hl
    simp [GetOrLoadFileContent, hl]
  · intro hnone text ht
    constructor
    · simp [GetOrLoadFileContent, readFileLines, hnone, ht]
    · simp [List.lookup]
  · intro hnone hdnone
    simp [GetOrLoadFileContent, readFileLines, hnone, hdnone]
  · intro entries rootPath params hl
    simp [handleCompletion, hl]

/-- C4 amended witness: a miss with readable content loads and caches
the split lines without touching other entries; an unreadable path
fails with none; a completion request for an uncached document answers
with the internal error and an unchanged cache. -/
theorem spec_c4_lazy_load_witness :
    GetOrLoadFileContent [("/ws/b.rb", ["y"])] diskC4 "/ws/a.rb" =
      some (["x"], [("/ws/a.rb", ["x"]), ("/ws/b.rb", ["y"])]) ∧
    GetOrLoadFileContent [] diskC4 "/ws/c.rb" = none ∧
    handleCompletion [] "/ws" [("/ws/b.rb", ["y"])] diskC4
        { uri := "file:///ws/c.rb", position := { line := 0, character := 0 } } =
      (CompletionOutcome.internalError "Line out of range", [("/ws/b.rb", ["y"])]) := by
  refine ⟨?_, ?_, ?_⟩
  · have h := ((spec_c4_lazy_load [("/ws/b.rb", ["y"])] diskC4 "/ws/a.rb").2.1
      (by decide) "x" (by decide)).1
    rw [(by decide : goSplit "x" '\n' = ["x"])] at h
    exact h
  · exact (spec_c4_lazy_load [] diskC4 "/ws/c.rb").2.2.1 (by decide) (by decide)
  · exact (spec_c4_lazy_load [("/ws/b.rb", ["y"])] diskC4 "/ws/c.rb").2.2.2
      [] "/ws" { uri := "file:///ws/c.rb", position := { line := 0, character := 0 } }
      (by decide)

/-- The full per-entry filter of the completion loop: the
case-insensitive prefix match together with the include decision. -/
def passesCompletion (rootPath currentFileExt word : String) (isAfterDot : Bool)
    (e : TagEntry) : Bool :=
  prefixMatches word e && includeEntryB rootPath currentFileExt isAfterDot e

lemma completionLoop_true_mem (rootPath currentFileExt word : String) :
    ∀ (entries : List TagEntry) (seen : List String) (item : CompletionItem),
    item ∈ completionLoop rootPath currentFileExt word true entries seen →
    ∃ e, e ∈ entries ∧ item = mkCompletionItem e ∧
      (GetLSPCompletionKind e.kind = CompletionItemKindMethod ∨
       GetLSPCompletionKind e.kind = CompletionItemKindFunction) ∧
      filepathExt (goJoin rootPath e.path) = currentFileExt := by
  intro entries
  induction entries with
  | nil => intro seen item h; simp [completionLoop] at h
  | cons entry rest ih =>
    intro seen item h
    simp only [completionLoop] at h
    by_cases hp : prefixMatches word entry = true
    · rw [if_pos hp] at h
      by_cases hseen : entry.name ∈ seen
      · rw [if_pos hseen] at h
        obtain ⟨e, he, hrest⟩ := ih seen item h
        exact ⟨e, List.mem_cons_of_mem entry he, hrest⟩
      · rw [if_neg hseen] at h
        by_cases hinc : includeEntryB rootPath currentFileExt true entry = true
        · rw [if_pos hinc] at h
          simp only [includeEntryB, if_true, Bool.and_eq_true, Bool.or_eq_true,
            beq_iff_eq] at hinc
          rcases List.mem_cons.mp h with h1 | h1
          · exact ⟨entry, List.mem_cons_self entry rest, h1, hinc.1, hinc.2⟩
          · obtain ⟨e, he, hrest⟩ := ih (entry.name :: seen) item h1
            exact ⟨e, List.mem_cons_of_mem entry he, hrest⟩
        · rw [if_neg hinc] at h
          obtain ⟨e, he, hrest⟩ := ih seen item h
          exact ⟨e, List.mem_cons_of_mem entry he, hrest⟩
    · rw [if_neg hp] at h
      obtain ⟨e, he, hrest⟩ := ih seen item h
      exact ⟨e, List.mem_cons_of_mem entry he, hrest⟩

/-- C6: for every symbol index and every completion request whose
cursor is immediately preceded by a literal period, every item of the
returned list has the method or function presentation category and
comes from a record whose file extension equals the requesting
document's extension; no other entry is included. -/
theorem spec_c6_dot_heuristic :
    ∀ (entries : List TagEntry) (rootPath : String) (cache : Cache) (disk : Disk)
      (params : CompletionParams) (lines : List String)
      (items : List CompletionItem) (cache2 : Cache),
    List.lookup (uriToPath params.uri) cache = some lines →
    isAfterDotIn lines params.position = true →
    handleCompletion entries rootPath cache disk params =
      (CompletionOutcome.ok items, cache2) →
    ∀ item ∈ items,
      (item.kind = CompletionItemKindMethod ∨
       item.kind = CompletionItemKindFunction) ∧
      ∃ e, e ∈ entries ∧ item = mkCompletionItem e ∧
        filepathExt (goJoin rootPath e.path) = filepathExt (uriToPath params.uri) := by
  intro entries rootPath cache disk params lines items cache2 hlook hdot hrun item hitem
  simp only [handleCompletion] at hrun
  rw [hlook] at hrun
  dsimp only at hrun
  by_cases hlen : lines.length ≤ params.position.line
  · rw [if_pos hlen] at hrun
    simp only [Prod.mk.injEq] at hrun
    exact absurd hrun.1 (by simp)
  · rw [if_neg hlen] at hrun
    have hserver : serverGetCurrentWord cache disk params.uri params.position =
        (getCurrentWordInLines lines params.position, cache) := by
      simp [serverGetCurrentWord, GetOrLoadFileContent, hlook]
    rw [hserver] at hrun
    cases hw : getCurrentWordInLines lines params.position with
    | none =>
      rw [hw] at hrun
      simp only [Prod.mk.injEq] at hrun
      obtain ⟨h1, _⟩ := hrun
      injection h1 with h1
      rw [← h1] at hitem
      exact absurd hitem (by simp)
    | some word =>
      rw [hw, hdot] at hrun
      simp only [Prod.mk.injEq] at hrun
      obtain ⟨h1, _⟩ := hrun
      injection h1 with h1
      rw [← h1] at hitem
      obtain ⟨e, he, heq, hkind, hext⟩ :=
        completionLoop_true_mem rootPath (filepathExt (uriToPath params.uri)) word
          entries [] item hitem
      refine ⟨?_, e, he, heq, hext⟩
      rw [heq]
      exact hkind

/-- Concrete record used by the C6 and C8 witnesses: a function in a
Ruby file. -/
def tagFnord : TagEntry := mkTag "fnord" "y.rb" "function" 3

/-- Concrete cache for the C6 witness: the requesting Ruby document,
whose line reads a.fn with the cursor after the period. -/
def cacheC6 : Cache := [("/ws/a.rb", ["a.fn"])]

/-- C6 witness: in the concrete after-dot request the handler returns
exactly the function item for tagFnord, which has the function
category and matching extension. -/
theorem spec_c6_dot_heuristic_witness :
    ((mkCompletionItem tagFnord).kind = CompletionItemKindMethod ∨
     (mkCompletionItem tagFnord).kind = CompletionItemKindFunction) ∧
    ∃ e, e ∈ [tagFnord] ∧ mkCompletionItem tagFnord = mkCompletionItem e ∧
      filepathExt (goJoin "/ws" e.path) = filepathExt (uriToPath "file:///ws/a.rb") :=
  spec_c6_dot_heuristic [tagFnord] "/ws" cacheC6 (fun _ => none)
    { uri := "file:///ws/a.rb", position := { line := 0, character := 2 } }
    ["a.fn"] [mkCompletionItem tagFnord] cacheC6 (by decide) (by decide) (by decide)
    (mkCompletionItem tagFnord) (by decide)

lemma completionLoop_labels_not_seen (rootPath currentFileExt word : String)
    (isAfterDot : Bool) :
    ∀ (entries : List TagEntry) (seen : List String),
    ((completionLoop rootPath currentFileExt word isAfterDot entries seen).map
        (fun i => i.label)).Nodup ∧
    ∀ l ∈ (completionLoop rootPath currentFileExt word isAfterDot entries seen).map
        (fun i => i.label), l ∉ seen := by
  intro entries
  induction entries with
  | nil => intro seen; simp [completionLoop]
  | cons entry rest ih =>
    intro seen
    simp only [completionLoop]
    by_cases hp : prefixMatches word entry = true
    · rw [if_pos hp]
      by_cases hseen : entry.name ∈ seen
      · rw [if_pos hseen]; exact ih seen
      · rw [if_neg hseen]
        by_cases hinc : includeEntryB rootPath currentFileExt isAfterDot entry = true
        · rw [if_pos hinc]
          simp only [List.map_cons]
          constructor
          · rw [List.nodup_cons]
            refine ⟨?_, (ih (entry.name :: seen)).1⟩
            intro hmem
            exact (ih (entry.name :: seen)).2 (mkCompletionItem entry).label hmem
              (List.mem_cons_self _ _)
          · intro l hl
            rcases List.mem_cons.mp hl with h1 | h1
            · rw [h1]; exact hseen
            · intro hls
              exact (ih (entry.name :: seen)).2 l h1 (List.mem_cons_of_mem _ hls)
        · rw [if_neg hinc]; exact ih seen
    · rw [if_neg hp]; exact ih seen

lemma completionLoop_first_wins (rootPath currentFileExt word : String)
    (isAfterDot : Bool) :
    ∀ (pre : List TagEntry) (e : TagEntry) (post : List TagEntry)
      (seen : List String),
    e.name ∉ seen →
    passesCompletion rootPath currentFileExt word isAfterDot e = true →
    (∀ f ∈ pre, f.name = e.name →
      passesCompletion rootPath currentFileExt word isAfterDot f = false) →
    mkCompletionItem e ∈
      completionLoop rootPath currentFileExt word isAfterDot (pre ++ e :: post) seen := by
  intro pre
  induction pre with
  | nil =>
    intro e post seen hseen hpass _
    simp only [passesCompletion, Bool.and_eq_true] at hpass
    simp only [List.nil_append, completionLoop]
    rw [if_pos hpass.1, if_neg hseen, if_pos hpass.2]
    exact List.mem_cons_self _ _
  | cons f pre ih =>
    intro e post seen hseen hpass hpre
    have hpre2 : ∀ g ∈ pre, g.name = e.name →
        passesCompletion rootPath currentFileExt word isAfterDot g = false :=
      fun g hg => hpre g (List.mem_cons_of_mem f hg)
    simp only [List.cons_append, completionLoop]
    by_cases hfp : prefixMatches word f = true
    · rw [if_pos hfp]
      by_cases hfs : f.name ∈ seen
      · rw [if_pos hfs]; exact ih e post seen hseen hpass hpre2
      · rw [if_neg hfs]
        by_cases hfi : includeEntryB rootPath currentFileExt isAfterDot f = true
        · rw [if_pos hfi]
          have hfpass : passesCompletion rootPath currentFileExt word isAfterDot f = true := by
            simp [passesCompletion, hfp, hfi]
          have hne : f.name ≠ e.name := by
            intro hc
            rw [hpre f (List.mem_cons_self f pre) hc] at hfpass
            exact absurd hfpass (by simp)
          have hseen2 : e.name ∉ f.name :: seen := by
            intro hc
            rcases List.mem_cons.mp hc with h1 | h1
            · exact hne h1.symm
            · exact hseen h1
          exact List.mem_cons_of_mem _ (ih e post (f.name :: seen) hseen2 hpass hpre2)
        · rw [if_neg hfi]; exact ih e post seen hseen hpass hpre2
    · rw [if_neg hfp]; exact ih e post seen hseen hpass hpre2

/-- C7: for every symbol index and every completion request, the
returned list never contains two items with the same label, and when
several records share a name the first record in index order that
passes the completion filter is the one whose item is emitted. -/
theorem spec_c7_dedup_first_wins :
    ∀ (rootPath currentFileExt word : String) (isAfterDot : Bool)
      (entries : List TagEntry),
    ((completionLoop rootPath currentFileExt word isAfterDot entries []).map
        (fun i => i.label)).Nodup ∧
    ∀ pre e post, entries = pre ++ e :: post →
      passesCompletion rootPath currentFileExt word isAfterDot e = true →
      (∀ f ∈ pre, f.name = e.name →
        passesCompletion rootPath currentFileExt word isAfterDot f = false) →
      mkCompletionItem e ∈
        completionLoop rootPath currentFileExt word isAfterDot entries [] :=
  fun rootPath currentFileExt word isAfterDot entries =>
    ⟨(completionLoop_labels_not_seen rootPath currentFileExt word isAfterDot
        entries []).1,
     fun pre e post heq hpass hpre =>
       heq ▸ completionLoop_first_wins rootPath currentFileExt word isAfterDot
         pre e post [] (List.not_mem_nil e.name) hpass hpre⟩

/-- Two records sharing the name dup: the first from a Python file (it
fails the extension filter of a Ruby request), the second from a Ruby
file. -/
def dupEntryPy : TagEntry := mkTag "dup" "x.py" "function" 1

/-- The second record named dup, from a Ruby file. -/
def dupEntryRb : TagEntry := mkTag "dup" "y.rb" "function" 2

/-- C7 witness: with two records named dup of which only the second
passes the filter, the result labels are without duplicates and the
emitted item is built from the second record. -/
theorem spec_c7_dedup_first_wins_witness :
    ((completionLoop "/ws" ".rb" "du" false [dupEntryPy, dupEntryRb] []).map
        (fun i => i.label)).Nodup ∧
    mkCompletionItem dupEntryRb ∈
      completionLoop "/ws" ".rb" "du" false [dupEntryPy, dupEntryRb] [] :=
  ⟨(spec_c7_dedup_first_wins "/ws" ".rb" "du" false [dupEntryPy, dupEntryRb]).1,
   (spec_c7_dedup_first_wins "/ws" ".rb" "du" false [dupEntryPy, dupEntryRb]).2
     [dupEntryPy] dupEntryRb [] rfl (by decide) (by decide)⟩

lemma workspaceSymbolLoop_name_eq (rootPath : String) (disk : Disk) (query : String) :
    ∀ (entries : List TagEntry) (cache : Cache) (s : SymbolInformation),
    s ∈ (workspaceSymbolLoop rootPath disk query entries cache).1 → s.name = query := by
  intro entries
  induction entries with
  | nil => intro cache s h; simp [workspaceSymbolLoop] at h
  | cons entry rest ih =>
    intro cache s h
    simp only [workspaceSymbolLoop] at h
    by_cases hq : entry.name = query
    · rw [if_pos hq] at h
      cases hk : GetLSPSymbolKind entry.kind with
      | none => rw [hk] at h; exact ih cache s h
      | some kind =>
        rw [hk] at h
        cases hg : GetOrLoadFileContent cache disk (goJoin rootPath entry.path) with
        | none => rw [hg] at h; exact ih cache s h
        | some pr =>
          obtain ⟨content, cache2⟩ := pr
          rw [hg] at h
          dsimp only at h
          rcases List.mem_cons.mp h with h1 | h1
          · rw [h1]; exact hq
          · exact ih cache2 s h1
    · rw [if_neg hq] at h; exact ih cache s h

lemma workspaceSymbolLoop_no_match (rootPath : String) (disk : Disk) (query : String) :
    ∀ (entries : List TagEntry) (cache : Cache),
    (∀ e ∈ entries, e.name ≠ query) →
    (workspaceSymbolLoop rootPath disk query entries cache).1 = [] := by
  intro entries
  induction entries with
  | nil => intro cache _; rfl
  | cons entry rest ih =>
    intro cache h
    have hq : ¬ entry.name = query := h entry (List.mem_cons_self entry rest)
    simp only [workspaceSymbolLoop]
    rw [if_neg hq]
    exact ih cache fun e he => h e (List.mem_cons_of_mem entry he)

/-- C8: workspaceSymbol matches record names exactly, never partially
— every emitted symbol carries exactly the query as its name, and an
index whose records all have names different from the query (such as a
record named FooBar queried with Foo) yields no result — while
completion matches case-insensitive prefixes, so the prefix Foo does
match a record named FooBar and its item is emitted. -/
theorem spec_c8_exact_query_match :
    (∀ (rootPath : String) (disk : Disk) (query : String) (entries : List TagEntry)
       (cache : Cache) (s : SymbolInformation),
      s ∈ (workspaceSymbolLoop rootPath disk query entries cache).1 →
      s.name = query) ∧
    (∀ (rootPath : String) (disk : Disk) (cache : Cache) (e : TagEntry),
      e.name = "FooBar" →
      (workspaceSymbolLoop rootPath disk "Foo" [e] cache).1 = []) ∧
    (∀ (rootPath currentFileExt : String) (e : TagEntry),
      e.name = "FooBar" →
      filepathExt (goJoin rootPath e.path) = currentFileExt →
      mkCompletionItem e ∈
        completionLoop rootPath currentFileExt "Foo" false [e] []) := by
  refine ⟨fun rootPath disk query entries cache s h =>
      workspaceSymbolLoop_name_eq rootPath disk query entries cache s h,
    fun rootPath disk cache e he =>
      workspaceSymbolLoop_no_match rootPath disk "Foo" [e] cache ?_,
    fun rootPath currentFileExt e he hext => ?_⟩
  · intro f hf
    rw [List.mem_singleton.mp hf, he]
    decide
  · have hp : prefixMatches "Foo" e = true := by
      simp only [prefixMatches, goHasPrefixStr, goToLower, he]
      decide
    have hinc : includeEntryB rootPath currentFileExt false e = true := by
      simp [includeEntryB, hext]
    simp only [completionLoop]
    rw [if_pos hp, if_neg (List.not_mem_nil e.name), if_pos hinc]
    exact List.mem_cons_self _ _

/-- Record named FooBar used by the C8 witness. -/
def tagFooBar : TagEntry := mkTag "FooBar" "y.rb" "function" 1

/-- C8 witness: the workspaceSymbol query Foo yields nothing for the
FooBar record, while the completion prefix Foo emits its item. -/
theorem spec_c8_exact_query_match_witness :
    (workspaceSymbolLoop "/ws" (fun _ => none) "Foo" [tagFooBar] []).1 = [] ∧
    mkCompletionItem tagFooBar ∈
      completionLoop "/ws" ".rb" "Foo" false [tagFooBar] [] :=
  ⟨spec_c8_exact_query_match.2.1 "/ws" (fun _ => none) [] tagFooBar (by decide),
   spec_c8_exact_query_match.2.2 "/ws" ".rb" tagFooBar (by decide) (by decide)⟩

lemma nil_isPrefixOf (l : List Char) : ([] : List Char).isPrefixOf l = true := by
  cases l <;> rfl

lemma cons_isPrefixOf_nil (a : Char) (as : List Char) :
    (a :: as).isPrefixOf ([] : List Char) = false := rfl

lemma firstOccur_eq_some_iff (needle : List Char) :
    ∀ (hay : List Char) (k : Nat),
    firstOccur needle hay = some k ↔
      (needle.isPrefixOf (hay.drop k) = true ∧
       ∀ j < k, needle.isPrefixOf (hay.drop j) = false) := by
  intro hay
  induction hay with
  | nil =>
    intro k
    constructor
    · intro h
      by_cases hn : needle = []
      · rw [firstOccur, if_pos hn] at h
        injection h with h
        subst h
        exact ⟨by rw [hn, nil_isPrefixOf], fun j hj => absurd hj (Nat.not_lt_zero j)⟩
      · rw [firstOccur, if_neg hn] at h
        exact absurd h (by simp)
    · rintro ⟨h1, h2⟩
      by_cases hn : needle = []
      · rw [firstOccur, if_pos hn]
        cases k with
        | zero => rfl
        | succ k =>
          have h0 := h2 0 (Nat.succ_pos k)
          rw [hn, nil_isPrefixOf] at h0
          exact absurd h0 (by simp)
      · rw [List.drop_nil] at h1
        cases needle with
        | nil => exact absurd rfl hn
        | cons a as =>
          rw [cons_isPrefixOf_nil] at h1
          exact absurd h1 (by simp)
  | cons c rest ih =>
    intro k
    constructor
    · intro h
      rw [firstOccur] at h
      by_cases hp : needle.isPrefixOf (c :: rest) = true
      · rw [if_pos hp] at h
        injection h with h
        subst h
        exact ⟨hp, fun j hj => absurd hj (Nat.not_lt_zero j)⟩
      · rw [if_neg hp] at h
        rw [Option.map_eq_some'] at h
        obtain ⟨k2, hk2, hkk⟩ := h
        subst hkk
        have hrec := (ih k2).mp hk2
        refine ⟨hrec.1, ?_⟩
        intro j hj
        cases j with
        | zero => exact Bool.eq_false_iff.mpr hp
        | succ j => exact hrec.2 j (Nat.succ_lt_succ_iff.mp hj)
    · rintro ⟨h1, h2⟩
      rw [firstOccur]
      by_cases hp : needle.isPrefixOf (c :: rest) = true
      · rw [if_pos hp]
        cases k with
        | zero => rfl
        | succ k =>
          have h0 := h2 0 (Nat.succ_pos k)
          rw [show (c :: rest).drop 0 = c :: rest from rfl, hp] at h0
          exact absurd h0 (by simp)
      · rw [if_neg hp]
        cases k with
        | zero => exact absurd h1 hp
        | succ k =>
          rw [Option.map_eq_some']
          refine ⟨k, (ih k).mpr ⟨h1, ?_⟩, rfl⟩
          intro j hj
          exact h2 (j + 1) (Nat.succ_lt_succ hj)

lemma firstOccur_eq_none_of_bounded (needle hay : List Char)
    (h : ∀ j ≤ hay.length, needle.isPrefixOf (hay.drop j) = false) :
    firstOccur needle hay = none := by
  cases hf : firstOccur needle hay with
  | none => rfl
  | some k =>
    have hk := (firstOccur_eq_some_iff needle hay k).mp hf
    by_cases hkl : k ≤ hay.length
    · have h1 := hk.1
      rw [h k hkl] at h1
      exact absurd h1 (by simp)
    · have hdrop : hay.drop k = [] :=
        List.drop_eq_nil_of_le (Nat.le_of_lt (Nat.lt_of_not_le hkl))
      have h1 := hk.1
      rw [hdrop] at h1
      cases hn : needle with
      | nil =>
        have h0 := h 0 (Nat.zero_le _)
        rw [hn, nil_isPrefixOf] at h0
        exact absurd h0 (by simp)
      | cons a as =>
        rw [hn, cons_isPrefixOf_nil] at h1
        exact absurd h1 (by simp)

/-- C9: findSymbolRangeInFile converts the 1-based line number to a
0-based index; out of bounds (including the negative index from a
zero line number) yields a zero-width range at that index; in bounds,
when the symbol name occurs nowhere on the line the span covers the
whole line, and when it first occurs at rune position k the span
starts at the byte offset of k and extends over the rune length of the
name.  Occurrence is characterized by the prefix relation at each
offset, independently of the search function of the implementation. -/
theorem spec_c9_symbol_range :
    ∀ (lines : List String) (symbolName : String) (lineNumber : Int),
    ((lineNumber - 1 < 0 ∨ (lines.length : Int) ≤ lineNumber - 1) →
      findSymbolRangeInFile lines symbolName lineNumber =
        ⟨⟨lineNumber - 1, 0⟩, ⟨lineNumber - 1, 0⟩⟩) ∧
    (0 ≤ lineNumber - 1 → lineNumber - 1 < (lines.length : Int) →
      ((∀ j ≤ (lines.getD (lineNumber - 1).toNat "").toList.length,
          symbolName.toList.isPrefixOf
            ((lines.getD (lineNumber - 1).toNat "").toList.drop j) = false) →
        findSymbolRangeInFile lines symbolName lineNumber =
          ⟨⟨lineNumber - 1, 0⟩,
           ⟨lineNumber - 1, ((lines.getD (lineNumber - 1).toNat "").toList.length : Int)⟩⟩) ∧
      (∀ k, symbolName.toList.isPrefixOf
            ((lines.getD (lineNumber - 1).toNat "").toList.drop k) = true →
        (∀ j < k, symbolName.toList.isPrefixOf
            ((lines.getD (lineNumber - 1).toNat "").toList.drop j) = false) →
        findSymbolRangeInFile lines symbolName lineNumber =
          ⟨⟨lineNumber - 1, (utf8Len ((lines.getD (lineNumber - 1).toNat "").toList.take k) : Int)⟩,
           ⟨lineNumber - 1, (utf8Len ((lines.getD (lineNumber - 1).toNat "").toList.take k) : Int) +
              (symbolName.toList.length : Int)⟩⟩)) := by
  intro lines symbolName lineNumber
  constructor
  · intro h
    simp only [findSymbolRangeInFile]
    rw [if_pos h]
  · intro h0 hlt
    have hcond : ¬ (lineNumber - 1 < 0 ∨ (lines.length : Int) ≤ lineNumber - 1) :=
      not_or.mpr ⟨not_lt.mpr h0, not_le.mpr hlt⟩
    constructor
    · intro habs
      have hnone := firstOccur_eq_none_of_bounded symbolName.toList
        (lines.getD (lineNumber - 1).toNat "").toList habs
      simp only [findSymbolRangeInFile]
      rw [if_neg hcond, hnone]
    · intro k hk hmin
      have hsome : firstOccur symbolName.toList
          (lines.getD (lineNumber - 1).toNat "").toList = some k :=
        (firstOccur_eq_some_iff symbolName.toList
          (lines.getD (lineNumber - 1).toNat "").toList k).mpr ⟨hk, hmin⟩
      simp only [findSymbolRangeInFile]
      rw [if_neg hcond, hsome]

/-- C9 witness: the three branches on concrete data — line number 5
out of bounds of a one-line file; the absent symbol zz spanning the
whole line abc; the symbol foo first occurring at offset 4 of the
line def foo. -/
theorem spec_c9_symbol_range_witness :
    findSymbolRangeInFile ["x"] "y" 5 = ⟨⟨4, 0⟩, ⟨4, 0⟩⟩ ∧
    findSymbolRangeInFile ["abc"] "zz" 1 = ⟨⟨0, 0⟩, ⟨0, 3⟩⟩ ∧
    findSymbolRangeInFile ["def foo"] "foo" 1 = ⟨⟨0, 4⟩, ⟨0, 7⟩⟩ := by
  refine ⟨?_, ?_, ?_⟩
  · have h := (spec_c9_symbol_range ["x"] "y" 5).1 (by decide)
    rw [h]; decide
  · have h := ((spec_c9_symbol_range ["abc"] "zz" 1).2 (by decide) (by decide)).1
      (by decide)
    rw [h]; decide
  · have h := ((spec_c9_symbol_range ["def foo"] "foo" 1).2 (by decide) (by decide)).2
      4 (by decide) (by decide)
    rw [h]; decide
